import Mathlib

/-!
Shallow embedding of the `shelltoken` Go package (file `shelltoken.go`).

The package exposes a single entry point `Parse` which trims the input,
scans it character by character maintaining quote/escape state, splits on
unquoted whitespace, and finally partitions the token list into an
environment-assignment prefix and the argv remainder
(`extractEnvFromArgv`).

Modelling decisions, each tied to a line of the source:

* Go iterates runes with `for pos, char := range str`; we model the input
  as `List Char` (Lean `Char` is a unicode scalar value, as is a Go rune).
* The one place the Go code is byte-oriented is the lookahead
  `str[pos+1]` inside the double-quote backslash branch.  The current
  char there is a backslash (one byte), so `pos+1` is the first byte of
  the next rune when one exists; that byte equals `"` or `\` exactly
  when the next rune is `"` or `\` (a multi-byte rune starts with a byte
  at or above 0x80, which is neither).  When the backslash is the last
  rune, `pos+1 = len(str)` and the guard `len(str) > pos` is still true
  (`pos` indexes the current rune, hence is below `len(str)`), so
  `str[pos+1]` panics with an index-out-of-range runtime error.  We
  model that panic as `none` in an `Option`-valued scan.
* `strings.TrimSpace` trims runes satisfying `unicode.IsSpace`
  (the Unicode White_Space property), modelled by `goIsSpace`.
* Go returns the triple `(env, argv, err)`; we model a normal return as
  `some (env, argv, err)` with `err : Option GoError`, and a panic as
  `none`.  On the unbalanced-quotes error the Go code returns
  `nil, nil, ErrUnbalancedQuotes`; nil slices are modelled as `[]`.
-/

namespace Shelltoken

/-- Backslash character, `\`. -/
def bs : Char := Char.ofNat 92

/-- Double-quote character. -/
def dq : Char := Char.ofNat 34

/-- Single-quote character. -/
def sq : Char := Char.ofNat 39

/-- Space. -/
def spc : Char := Char.ofNat 32

/-- Horizontal tab. -/
def tab : Char := Char.ofNat 9

/-- Newline. -/
def nl : Char := Char.ofNat 10

/-- Carriage return. -/
def cr : Char := Char.ofNat 13

/-- Vertical tab (not in the scanner separator set). -/
def vtab : Char := Char.ofNat 11

/-- Go `unicode.IsSpace`: the Unicode White_Space property, used by
`strings.TrimSpace`.  Ranges taken from Go `unicode.White_Space`:
0x09-0x0D, 0x20, 0x85, 0xA0, 0x1680, 0x2000-0x200A, 0x2028, 0x2029,
0x202F, 0x205F, 0x3000. -/
def goIsSpace (c : Char) : Bool :=
  (0x09 ≤ c.val && c.val ≤ 0x0D) || c.val == 0x20 || c.val == 0x85 ||
  c.val == 0xA0 || c.val == 0x1680 ||
  (0x2000 ≤ c.val && c.val ≤ 0x200A) || c.val == 0x2028 ||
  c.val == 0x2029 || c.val == 0x202F || c.val == 0x205F || c.val == 0x3000

/-- Go `strings.TrimSpace`: drop leading and trailing `unicode.IsSpace`
runes. -/
def trimSpace (cs : List Char) : List Char :=
  ((cs.dropWhile goIsSpace).reverse.dropWhile goIsSpace).reverse

/-- The separator set of the scanner: Go `separator := " \t\n\r"` and
`strings.ContainsRune(separator, char)`. -/
def isSeparator (c : Char) : Bool :=
  c == spc || c == tab || c == nl || c == cr

/-- The mutable locals of Go `Parse` during the scan: `token` (nil vs
started buffer), the two quote flags, the escape flag, and the slice
`argv` accumulated so far. -/
structure ScanState where
  token : Option (List Char)
  inQuotes : Bool
  inDbl : Bool
  escaped : Bool
  argv : List String
deriving Repr, DecidableEq

/-- The initial scan state: all locals zero-valued. -/
def initState : ScanState :=
  { token := none, inQuotes := false, inDbl := false, escaped := false,
    argv := [] }

/-- Go closure `addToken`: clears `escaped`, allocates the buffer if nil,
appends the character. -/
def addToken (st : ScanState) (c : Char) : ScanState :=
  { st with escaped := false, token := some (st.token.getD [] ++ [c]) }

/-- The `if token == nil { token = make([]rune, 0) }` prologue of the
quote cases: mark the token as started (possibly empty). -/
def ensureToken (st : ScanState) : ScanState :=
  { st with token := some (st.token.getD []) }

/-- One iteration of the scan loop of Go `Parse` on character `c`.
`rest` is the part of the input after `c`, needed for the one-character
lookahead `str[pos+1]` of the double-quote backslash rule; `none` models
the Go panic when that lookahead indexes past the end of the string
(the guard `len(str) > pos` is always true inside the loop). -/
def stepChar (st : ScanState) (c : Char) (rest : List Char) :
    Option ScanState :=
  if !st.escaped && c == bs then
    let st1 := { st with escaped := true }
    if st1.inQuotes then
      some (addToken st1 c)
    else if st1.inDbl then
      match rest with
      | [] => none
      | c2 :: _ =>
        if c2 == dq || c2 == bs then some st1 else some (addToken st1 c)
    else
      some st1
  else if !st.escaped && c == dq then
    let st1 := ensureToken st
    if !st1.inQuotes then
      some { st1 with inDbl := !st1.inDbl }
    else
      some (addToken st1 c)
  else if !st.escaped && c == sq then
    let st1 := ensureToken st
    if !st1.inDbl then
      some { st1 with inQuotes := !st1.inQuotes }
    else
      some (addToken st1 c)
  else if !st.escaped && isSeparator c then
    if st.inQuotes || st.inDbl then
      some (addToken st c)
    else if st.token.isSome then
      some { st with argv := st.argv ++ [String.mk (st.token.getD [])],
                     token := none }
    else
      some st
  else
    some (addToken st c)

/-- The scan loop of Go `Parse` from state `st` over the remaining
characters; `none` propagates the lookahead panic. -/
def scanSt (st : ScanState) : List Char → Option ScanState
  | [] => some st
  | c :: rest =>
    match stepChar st c rest with
    | none => none
    | some st1 => scanSt st1 rest

/-- The post-loop token flush of Go `Parse`: append the empty token if
none was ever started, else append the last token. -/
def finalize (st : ScanState) : List String :=
  match st.token with
  | none => st.argv ++ [""]
  | some t => st.argv ++ [String.mk t]

/-- Go `strings.Contains(s, "=")`. -/
def containsEq (s : String) : Bool := s.data.contains (Char.ofNat 61)

/-- Index of the first token that does not contain an equals sign:
the loop index `i` at which Go `extractEnvFromArgv` returns, `none`
when the loop runs off the end. -/
def firstNonAssign : List String → Option Nat
  | [] => none
  | s :: rest =>
    if !containsEq s then some 0 else (firstNonAssign rest).map (· + 1)

/-- Go `extractEnvFromArgv`: return `argv[0:i], argv[i:]` at the first
token without `=`; when every token contains `=`, the named return
values are still nil, so the result is `([], [])`. -/
def extractEnvFromArgv (argv : List String) : List String × List String :=
  match firstNonAssign argv with
  | some i => (argv.take i, argv.drop i)
  | none => ([], [])

/-- The only error value of the package, `ErrUnbalancedQuotes`. -/
inductive GoError where
  | unbalancedQuotes
deriving Repr, DecidableEq

/-- Go `Parse` after `strings.TrimSpace` has been applied: run the scan,
flush the final token, fail with `UnbalancedQuotes` (returning nil
slices) when a quote mode is still active, otherwise apply
`extractEnvFromArgv`.  `none` is the lookahead panic. -/
def parseTrimmed (cs : List Char) :
    Option (List String × List String × Option GoError) :=
  match scanSt initState cs with
  | none => none
  | some st =>
    let tokens := finalize st
    if st.inQuotes then
      some ([], [], some GoError.unbalancedQuotes)
    else if st.inDbl then
      some ([], [], some GoError.unbalancedQuotes)
    else
      let ea := extractEnvFromArgv tokens
      some (ea.1, ea.2, none)

/-- Go `Parse`: trim, then scan and split. -/
def Parse (str : String) :
    Option (List String × List String × Option GoError) :=
  parseTrimmed (trimSpace str.data)

/-- The token list produced by the tokenizer stage (the scan plus the
final flush), before the env/argv split; `none` is the lookahead
panic. -/
def tokenize (str : String) : Option (List String) :=
  (scanSt initState (trimSpace str.data)).map finalize

/-! ### Helper lemmas -/

theorem addToken_inQuotes (st : ScanState) (c : Char) :
    (addToken st c).inQuotes = st.inQuotes := rfl

theorem addToken_inDbl (st : ScanState) (c : Char) :
    (addToken st c).inDbl = st.inDbl := rfl

theorem ensureToken_inQuotes (st : ScanState) :
    (ensureToken st).inQuotes = st.inQuotes := rfl

theorem ensureToken_inDbl (st : ScanState) :
    (ensureToken st).inDbl = st.inDbl := rfl

/-- A step that succeeds never read past its `rest` argument: extending
`rest` gives the same result.  (The lookahead only inspects the head of
`rest`, and a step that saw the empty `rest` in the lookahead branch
would have panicked.) -/
theorem stepChar_extend (st : ScanState) (c : Char) (rest l2 : List Char)
    (s2 : ScanState) (h : stepChar st c rest = some s2) :
    stepChar st c (rest ++ l2) = some s2 := by
  by_cases h1 : (!st.escaped && c == bs) = true
  · by_cases h2 : st.inQuotes = true
    · simp only [stepChar, h1, if_true] at h ⊢
      simpa [h2] using h
    · by_cases h3 : st.inDbl = true
      · simp only [stepChar, h1, if_true] at h ⊢
        simp only [h2, h3, if_true, if_false, ite_true, ite_false,
          eq_self_iff_true] at h ⊢
        cases rest with
        | nil => exact absurd h (by simp)
        | cons c2 r => simpa using h
      · simp only [stepChar, h1, if_true] at h ⊢
        simpa [h2, h3] using h
  · simp only [stepChar, h1, if_false] at h ⊢
    exact h

/-- A successful scan of `l1` composes with the scan of anything
appended after it. -/
theorem scanSt_append_some (l1 l2 : List Char) (st st1 : ScanState)
    (h : scanSt st l1 = some st1) :
    scanSt st (l1 ++ l2) = scanSt st1 l2 := by
  induction l1 generalizing st with
  | nil =>
    simp only [scanSt] at h
    cases h
    simp
  | cons c rest ih =>
    simp only [scanSt] at h
    cases hs : stepChar st c rest with
    | none => rw [hs] at h; exact absurd h (by simp)
    | some s2 =>
      rw [hs] at h
      have hext : stepChar st c (rest.append l2) = some s2 :=
        stepChar_extend st c rest l2 s2 hs
      simp only [List.cons_append, scanSt]
      rw [hext]
      exact ih s2 h

/-- One step preserves mutual exclusion of the two quote modes: `inDbl`
is only toggled under `!inQuotes` and `inQuotes` only under `!inDbl`. -/
theorem stepChar_exclusive (st : ScanState) (c : Char) (rest : List Char)
    (st1 : ScanState) (h : stepChar st c rest = some st1)
    (hx : st.inQuotes = true → st.inDbl = false) :
    st1.inQuotes = true → st1.inDbl = false := by
  simp only [stepChar] at h
  repeat' split at h
  all_goals try exact absurd h (fun hc => Option.noConfusion hc)
  all_goals cases h
  all_goals simp_all [addToken, ensureToken]

/-- The scan preserves mutual exclusion of the quote modes from any
state satisfying it. -/
theorem scanSt_exclusive (cs : List Char) (st st1 : ScanState)
    (hx : st.inQuotes = true → st.inDbl = false)
    (h : scanSt st cs = some st1) :
    st1.inQuotes = true → st1.inDbl = false := by
  induction cs generalizing st with
  | nil => simp only [scanSt] at h; cases h; exact hx
  | cons c rest ih =>
    simp only [scanSt] at h
    cases hs : stepChar st c rest with
    | none => rw [hs] at h; exact absurd h (by simp)
    | some s2 =>
      rw [hs] at h
      exact ih s2 (stepChar_exclusive st c rest s2 hs hx) h

/-- The post-loop flush always appends exactly one more element. -/
theorem finalize_length (st : ScanState) :
    (finalize st).length = st.argv.length + 1 := by
  cases h : st.token with
  | none => simp [finalize, h]
  | some t => simp [finalize, h]

/-- When every token contains an equals sign, the splitter loop runs off
the end. -/
theorem firstNonAssign_eq_none (argv : List String)
    (h : ∀ s ∈ argv, containsEq s = true) : firstNonAssign argv = none := by
  induction argv with
  | nil => rfl
  | cons s rest ih =>
    have hs : containsEq s = true := h s (by simp)
    simp only [firstNonAssign, hs, Bool.not_true, if_false, ite_false,
      Bool.false_eq_true]
    rw [ih (fun t ht => h t (by simp [ht]))]
    rfl

/-- `dropWhile` removes a prefix of elements satisfying the predicate. -/
theorem dropWhile_decomp (p : Char → Bool) (l : List Char) :
    ∃ pre, l = pre ++ l.dropWhile p ∧ ∀ c ∈ pre, p c = true := by
  induction l with
  | nil => exact ⟨[], rfl, by simp⟩
  | cons a l ih =>
    by_cases h : p a = true
    · obtain ⟨pre, hl, hall⟩ := ih
      refine ⟨a :: pre, ?_, ?_⟩
      · simp only [List.dropWhile_cons, h, if_true, ite_true]
        rw [List.cons_append]
        exact congrArg (a :: ·) hl
      · intro c hc
        rcases List.mem_cons.mp hc with hc | hc
        · exact hc ▸ h
        · exact hall c hc
    · refine ⟨[], ?_, by simp⟩
      simp [List.dropWhile_cons, h]

/-- Trimming removes only characters in the trimmed set, and only from
the two ends. -/
theorem trimSpace_decomp (cs : List Char) :
    ∃ pre suf, cs = pre ++ trimSpace cs ++ suf ∧
      (∀ c ∈ pre, goIsSpace c = true) ∧ (∀ c ∈ suf, goIsSpace c = true) := by
  obtain ⟨pre, h1, hpre⟩ := dropWhile_decomp goIsSpace cs
  obtain ⟨pre2, h2, hpre2⟩ :=
    dropWhile_decomp goIsSpace (cs.dropWhile goIsSpace).reverse
  refine ⟨pre, pre2.reverse, ?_, hpre, ?_⟩
  · have hm : cs.dropWhile goIsSpace = trimSpace cs ++ pre2.reverse := by
      have := congrArg List.reverse h2
      simpa [trimSpace] using this
    rw [List.append_assoc, ← hm]
    exact h1
  · intro c hc
    exact hpre2 c (List.mem_reverse.mp hc)

/-- A list whose two end characters are outside the trimmed set is left
unchanged by `trimSpace`. -/
theorem trimSpace_no_trim (c c2 : Char) (cs : List Char)
    (h : goIsSpace c = false) (h2 : goIsSpace c2 = false) :
    trimSpace (c :: (cs ++ [c2])) = c :: (cs ++ [c2]) := by
  unfold trimSpace
  rw [List.dropWhile_cons]
  simp only [h, Bool.false_eq_true, if_false, ite_false]
  have hrev : (c :: (cs ++ [c2])).reverse = c2 :: (cs.reverse ++ [c]) := by
    simp
  rw [hrev, List.dropWhile_cons]
  simp only [h2, Bool.false_eq_true, if_false, ite_false]
  simp

/-- A singleton outside the trimmed set is left unchanged. -/
theorem trimSpace_singleton (c : Char) (h : goIsSpace c = false) :
    trimSpace [c] = [c] := by
  unfold trimSpace
  rw [List.dropWhile_cons]
  simp [h]

/-- A leading character in the trimmed set is removed. -/
theorem trimSpace_cons_space (c : Char) (cs : List Char)
    (h : goIsSpace c = true) : trimSpace (c :: cs) = trimSpace cs := by
  unfold trimSpace
  rw [List.dropWhile_cons]
  simp [h]

/-- The three possible shapes of a `parseTrimmed` result: the lookahead
panic, the unbalanced-quotes error with two nil slices, or a success
with no error. -/
theorem parseTrimmed_cases (cs : List Char) :
    parseTrimmed cs = none ∨
    parseTrimmed cs = some ([], [], some GoError.unbalancedQuotes) ∨
    ∃ env argv, parseTrimmed cs = some (env, argv, none) := by
  unfold parseTrimmed
  cases h : scanSt initState cs with
  | none => exact Or.inl rfl
  | some st =>
    cases hq : st.inQuotes with
    | true => exact Or.inr (Or.inl (by simp [hq]))
    | false =>
      cases hd : st.inDbl with
      | true => exact Or.inr (Or.inl (by simp [hq, hd]))
      | false =>
        exact Or.inr (Or.inr ⟨(extractEnvFromArgv (finalize st)).1,
          (extractEnvFromArgv (finalize st)).2, by simp [hq, hd]⟩)

/-! ### Claim theorems -/

/-- C1: the claim says argv is never empty even when every token looks
like an assignment.  The code violates this (and its own doc comment):
on the input `A=1` every token contains an equals sign,
`extractEnvFromArgv` returns two nil slices, and `Parse` succeeds with
an empty argv. -/
theorem c1_argv_empty_on_all_assign :
    Parse "A=1" = some ([], [], none) := by decide

/-- C2: the claim says the lookahead treats end-of-string as no special
next character and never reads past the end.  The code violates this:
the guard `len(str) > pos` is always true inside the loop, so for an
input ending with an unescaped backslash inside double quotes the
lookahead `str[pos+1]` indexes one past the end of the string and
panics (modelled as `none`), instead of appending the backslash and
reporting `UnbalancedQuotes`. -/
theorem c2_lookahead_panics :
    Parse (String.mk [dq, bs]) = none := by decide

/-- C3: for every non-empty token sequence in which every token contains
an equals sign, `extractEnvFromArgv` returns two empty sequences,
discarding even the assignment-looking tokens. -/
theorem c3_all_assign_split_empty (argv : List String) (_hne : argv ≠ [])
    (h : ∀ s ∈ argv, containsEq s = true) :
    extractEnvFromArgv argv = ([], []) := by
  unfold extractEnvFromArgv
  rw [firstNonAssign_eq_none argv h]

/-- C3 witness: the hypotheses and conclusion at the concrete token list
`["A=1"]`. -/
theorem c3_witness : extractEnvFromArgv ["A=1"] = ([], []) :=
  c3_all_assign_split_empty ["A=1"] (by decide) (by decide)

/-- C7: whenever the scan of the trimmed input completes with balanced
quotes, the tokenizer stage produces at least one token; the empty
input and a whitespace-only input each produce exactly one token, the
empty string. -/
theorem c7_tokenize_nonempty :
    (∀ (str : String) (st : ScanState),
        scanSt initState (trimSpace str.data) = some st →
        st.inQuotes = false → st.inDbl = false →
        1 ≤ (finalize st).length) ∧
    tokenize "" = some [""] ∧ tokenize "   " = some [""] := by
  refine ⟨?_, by decide, by decide⟩
  intro str st _ _ _
  rw [finalize_length]
  exact Nat.succ_le_succ (Nat.zero_le _)

/-- C7 witness: the general part applied to the empty input and the
initial state. -/
theorem c7_witness : 1 ≤ (finalize initState).length :=
  c7_tokenize_nonempty.1 "" initState (by decide) rfl rfl

/-- C8: after scanning any prefix of any input from the initial state,
the two quote-mode flags are never both true; moreover an unescaped
double quote seen inside single quotes, and an unescaped single quote
seen inside double quotes, are appended as literal characters by
`addToken` (which leaves both mode flags unchanged) rather than
toggling the other mode. -/
theorem c8_quote_modes_exclusive :
    (∀ (pre : List Char) (st : ScanState),
        scanSt initState pre = some st →
        ¬(st.inQuotes = true ∧ st.inDbl = true)) ∧
    (∀ (st : ScanState) (rest : List Char),
        st.escaped = false → st.inQuotes = true →
        stepChar st dq rest = some (addToken (ensureToken st) dq)) ∧
    (∀ (st : ScanState) (rest : List Char),
        st.escaped = false → st.inDbl = true →
        stepChar st sq rest = some (addToken (ensureToken st) sq)) ∧
    (∀ (st : ScanState) (c : Char),
        (addToken st c).inQuotes = st.inQuotes ∧
        (addToken st c).inDbl = st.inDbl) := by
  refine ⟨?_, ?_, ?_, fun st c => ⟨rfl, rfl⟩⟩
  · intro pre st h hc
    have hx := scanSt_exclusive pre initState st (by intro hq; cases hq) h
    rw [hx hc.1] at hc
    exact Bool.false_ne_true hc.2
  · intro st rest hesc hq
    have e1 : (dq == bs) = false := by decide
    have e2 : (dq == dq) = true := by decide
    simp [stepChar, hesc, hq, e1, e2, ensureToken]
  · intro st rest hesc hd
    have e1 : (sq == bs) = false := by decide
    have e2 : (sq == dq) = false := by decide
    have e3 : (sq == sq) = true := by decide
    simp [stepChar, hesc, hd, e1, e2, e3, ensureToken]

/-- C8 witness: the invariant applied to the empty prefix and the
initial state. -/
theorem c8_witness :
    ¬(initState.inQuotes = true ∧ initState.inDbl = true) :=
  c8_quote_modes_exclusive.1 [] initState rfl

/-- C4 counterexample: the claim says parsing the four characters
single-quote, `a`, backslash, single-quote ends with the single-quote
region still open and fails with `UnbalancedQuotes`.  In the code,
`addToken` clears `escaped`, so the closing single quote is unescaped,
closes the region, and the parse succeeds with argv containing the two
characters `a` and backslash. -/
theorem c4_counterexample :
    Parse (String.mk [sq, 'a', bs, sq]) =
      some ([], [String.mk ['a', bs]], none) := by decide

/-- C4 amended: inside single quotes an unescaped backslash is appended
literally, but the append (`addToken`) clears the `escaped` flag, so
the following character is not escaped; in particular a single quote
right after the backslash closes the region, and parsing
single-quote `a` backslash single-quote succeeds with argv `[a\]`. -/
theorem c4_amended_single_quote_backslash :
    (∀ (st : ScanState) (rest : List Char),
        st.inQuotes = true → st.escaped = false →
        stepChar st bs rest =
          some (addToken { st with escaped := true } bs) ∧
        (addToken { st with escaped := true } bs).escaped = false ∧
        (addToken { st with escaped := true } bs).token =
          some (st.token.getD [] ++ [bs])) ∧
    Parse (String.mk [sq, 'a', bs, sq]) =
      some ([], [String.mk ['a', bs]], none) := by
  refine ⟨?_, by decide⟩
  intro st rest hq hesc
  have e0 : (bs == bs) = true := by decide
  refine ⟨?_, rfl, rfl⟩
  simp [stepChar, hesc, hq, e0]

/-- C4 witness: the step applied at a concrete in-single-quote state. -/
theorem c4_witness :
    stepChar ⟨some ['a'], true, false, false, []⟩ bs [sq] =
      some (addToken
        { (⟨some ['a'], true, false, false, []⟩ : ScanState) with
            escaped := true } bs) :=
  (c4_amended_single_quote_backslash.1
    ⟨some ['a'], true, false, false, []⟩ [sq] rfl rfl).1

/-- C5 counterexample: the claim says a leading character outside
{space, tab, newline, carriage-return} — for example a vertical tab —
is not trimmed and is scanned as an ordinary character.  In the code
`strings.TrimSpace` trims it: parsing vertical-tab `a` yields the token
`a`, whereas scanning the untrimmed sequence would have produced the
two-character token. -/
theorem c5_counterexample :
    Parse (String.mk [vtab, 'a']) = some ([], ["a"], none) ∧
    parseTrimmed [vtab, 'a'] =
      some ([], [String.mk [vtab, 'a']], none) ∧
    isSeparator vtab = false := by decide

/-- C5 amended: `Parse` trims leading and trailing characters of the Go
`unicode.IsSpace` set (Unicode White_Space: space, tab, newline,
carriage return, and also vertical tab, form feed, NEL, NBSP and the
other Unicode space characters); exactly those characters are trimmed,
and characters outside that set are never trimmed.  The four-character
set of the claim is only the word-splitting separator set of the
scanner. -/
theorem c5_amended_trim_unicode_space :
    (∀ str : String, Parse str = parseTrimmed (trimSpace str.data)) ∧
    (∀ cs : List Char, ∃ pre suf, cs = pre ++ trimSpace cs ++ suf ∧
        (∀ c ∈ pre, goIsSpace c = true) ∧
        (∀ c ∈ suf, goIsSpace c = true)) ∧
    (∀ (c : Char) (cs : List Char), goIsSpace c = true →
        trimSpace (c :: cs) = trimSpace cs) ∧
    (∀ (c c2 : Char) (cs : List Char), goIsSpace c = false →
        goIsSpace c2 = false →
        trimSpace (c :: (cs ++ [c2])) = c :: (cs ++ [c2])) ∧
    (∀ c : Char, goIsSpace c = false → trimSpace [c] = [c]) ∧
    goIsSpace vtab = true ∧ goIsSpace (Char.ofNat 12) = true ∧
    isSeparator vtab = false ∧ isSeparator (Char.ofNat 12) = false :=
  ⟨fun _ => rfl, trimSpace_decomp, trimSpace_cons_space,
    trimSpace_no_trim, trimSpace_singleton, by decide, by decide,
    by decide, by decide⟩

/-- C5 witness: the leading-trim part applied to the vertical tab. -/
theorem c5_witness : trimSpace [vtab, 'a'] = trimSpace ['a'] :=
  c5_amended_trim_unicode_space.2.2.1 vtab ['a'] (by decide)

/-- C6: `Parse` returns the `UnbalancedQuotes` error exactly when the
scan of the trimmed input completes with one of the quote modes still
active, and every error return carries empty env and argv. -/
theorem c6_unbalanced_iff :
    (∀ str : String,
        Parse str = some ([], [], some GoError.unbalancedQuotes) ↔
        ∃ st, scanSt initState (trimSpace str.data) = some st ∧
          (st.inQuotes || st.inDbl) = true) ∧
    (∀ (str : String) (env argv : List String) (e : GoError),
        Parse str = some (env, argv, some e) → env = [] ∧ argv = []) := by
  constructor
  · intro str
    unfold Parse parseTrimmed
    cases h : scanSt initState (trimSpace str.data) with
    | none => simp
    | some st =>
      cases hq : st.inQuotes with
      | true => simp [hq]
      | false =>
        cases hd : st.inDbl with
        | true => simp [hq, hd]
        | false => simp [hq, hd]
  · intro str env argv e h
    have hP : Parse str = parseTrimmed (trimSpace str.data) := rfl
    rw [hP] at h
    rcases parseTrimmed_cases (trimSpace str.data) with hc | hc | ⟨e2, a2, hc⟩
    · rw [hc] at h
      exact absurd h (fun hx => Option.noConfusion hx)
    · rw [hc] at h
      injection h with h2
      exact ⟨(congrArg (fun t => t.1) h2).symm,
        (congrArg (fun t => t.2.1) h2).symm⟩
    · rw [hc] at h
      injection h with h2
      have h3 := congrArg (fun t => t.2.2) h2
      simp at h3

/-- C6 witness: an unterminated single quote at a concrete input. -/
theorem c6_witness :
    Parse (String.mk [sq, 'x']) =
      some ([], [], some GoError.unbalancedQuotes) :=
  (c6_unbalanced_iff.1 (String.mk [sq, 'x'])).mpr
    ⟨⟨some ['x'], true, false, false, []⟩, by decide, by decide⟩

/-- C9: inside double quotes (and not single quotes), an unescaped
backslash with a following character is consumed silently exactly when
that character is a double quote or a backslash, and is appended
literally otherwise; tokenizing the six characters double-quote `a`
backslash double-quote `b` double-quote yields the single token
`a"b`. -/
theorem c9_dbl_backslash_lookahead :
    (∀ (st : ScanState) (c2 : Char) (rest : List Char),
        st.escaped = false → st.inQuotes = false → st.inDbl = true →
        stepChar st bs (c2 :: rest) =
          some (if (c2 == dq || c2 == bs) = true
                then { st with escaped := true }
                else addToken { st with escaped := true } bs)) ∧
    tokenize (String.mk [dq, 'a', bs, dq, 'b', dq]) =
      some [String.mk ['a', dq, 'b']] := by
  refine ⟨?_, by decide⟩
  intro st c2 rest hesc hq hd
  have e0 : (bs == bs) = true := by decide
  by_cases h2 : (c2 == dq || c2 == bs) = true
  · simp [stepChar, hesc, hq, hd, e0, h2]
  · simp [stepChar, hesc, hq, hd, e0, h2]

/-- C9 witness: the silent-consumption branch at a concrete state where
the next character is a double quote. -/
theorem c9_witness :
    stepChar ⟨some ['a'], false, true, false, []⟩ bs [dq, 'b', dq] =
      some (if (dq == dq || dq == bs) = true
            then { (⟨some ['a'], false, true, false, []⟩ : ScanState) with
                     escaped := true }
            else addToken
              { (⟨some ['a'], false, true, false, []⟩ : ScanState) with
                  escaped := true } bs) :=
  c9_dbl_backslash_lookahead.1
    ⟨some ['a'], false, true, false, []⟩ dq ['b', dq] rfl rfl rfl

/-- C10: when the trimmed input ends with an unescaped backslash outside
any quote region, `Parse` succeeds; the final step only sets the
`escaped` flag, so the trailing backslash appears in no output token
(the result equals the parse of the input without it).  In particular
parsing the two characters `a` backslash gives env `[]` and argv
`["a"]`. -/
theorem c10_trailing_backslash :
    (∀ (pre : List Char) (st : ScanState),
        scanSt initState pre = some st → st.escaped = false →
        st.inQuotes = false → st.inDbl = false →
        scanSt initState (pre ++ [bs]) =
          some { st with escaped := true } ∧
        parseTrimmed (pre ++ [bs]) = parseTrimmed pre ∧
        ∃ env argv, parseTrimmed (pre ++ [bs]) = some (env, argv, none)) ∧
    Parse (String.mk ['a', bs]) = some ([], ["a"], none) := by
  refine ⟨?_, by decide⟩
  intro pre st h hesc hq hd
  have e0 : (bs == bs) = true := by decide
  have hstep : stepChar st bs [] = some { st with escaped := true } := by
    simp [stepChar, hesc, hq, hd, e0]
  have hscan : scanSt initState (pre ++ [bs]) =
      some { st with escaped := true } := by
    rw [scanSt_append_some pre [bs] initState st h]
    simp [scanSt, hstep]
  refine ⟨hscan, ?_, ?_⟩
  · unfold parseTrimmed
    rw [hscan, h]
    rfl
  · refine ⟨(extractEnvFromArgv (finalize { st with escaped := true })).1,
      (extractEnvFromArgv (finalize { st with escaped := true })).2, ?_⟩
    unfold parseTrimmed
    rw [hscan]
    simp [hq, hd]

/-- C10 witness: the general part applied after scanning the single
character `a`. -/
theorem c10_witness :
    scanSt initState (['a'] ++ [bs]) =
      some { (⟨some ['a'], false, false, false, []⟩ : ScanState) with
               escaped := true } :=
  (c10_trailing_backslash.1 ['a'] ⟨some ['a'], false, false, false, []⟩
    (by decide) rfl rfl rfl).1

end Shelltoken
